import Mathlib

set_option maxRecDepth 8000

/-!
Shallow embedding of `run.py` (Weather Dashboard: CSV → clean → convert °F→°C →
stats → export).  Tables are column-major lists of named columns whose cells are
numeric (`Rat`), text, or missing — mirroring a pandas `DataFrame` after
`read_csv` typing.  Numeric coercion (`pd.to_numeric(errors="coerce")`), the
column-role heuristics (`first_match`, `safe_index`), the unit conversion, the
plot-frame `dropna(how="all")`, the KPI statistics and the CSV export are each
translated into executable definitions below, followed by the theorems that
settle the specification claims.
-/

namespace Waterclass

/-- A single cell of a loaded table: a numeric value, a text value, or missing
(pandas `NaN`). -/
inductive Cell where
  | num (q : ℚ)
  | str (s : String)
  | na
deriving DecidableEq, Repr

/-- A table is an ordered list of named columns (column-major view of a
pandas `DataFrame`). -/
structure Table where
  cols : List (String × List Cell)
deriving DecidableEq, Repr

/-- Column names in order (the `df.columns` of the frame). -/
def Table.header (t : Table) : List String := t.cols.map Prod.fst

/-- Number of rows, read off the first column (pandas keeps all columns the
same length; `Table.Wf` records that invariant). -/
def Table.nRows (t : Table) : ℕ :=
  match t.cols with
  | [] => 0
  | c :: _ => c.2.length

/-- Well-formedness of a loaded frame: all columns have equal length and the
header has no duplicate names (as `pd.read_csv` guarantees by mangling). -/
def Table.Wf (t : Table) : Prop :=
  (∀ c ∈ t.cols, c.2.length = t.nRows) ∧ t.header.Nodup

instance (t : Table) : Decidable t.Wf := by
  unfold Table.Wf
  infer_instance

/-- Look up a column by name (first occurrence, like `df[name]`). -/
def Table.getCol? (t : Table) (name : String) : Option (List Cell) :=
  (t.cols.find? (fun c => c.1 == name)).map Prod.snd

/-- Column lookup with `[]` default. -/
def Table.getColD (t : Table) (name : String) : List Cell :=
  (t.getCol? name).getD []

/-- Helper for `Table.setCol`: replace the first column with the given name,
or append a new column at the end (pandas `df[name] = series`). -/
def setColAux (name : String) (vals : List Cell) :
    List (String × List Cell) → List (String × List Cell)
  | [] => [(name, vals)]
  | c :: cs => if c.1 = name then (name, vals) :: cs else c :: setColAux name vals cs

/-- `df[name] = series`: overwrite an existing column in place or append a new
one at the end. -/
def Table.setCol (t : Table) (name : String) (vals : List Cell) : Table :=
  ⟨setColAux name vals t.cols⟩

/-- `df.empty`: true when the frame has no columns or no rows. -/
def Table.isEmptyTable (t : Table) : Bool :=
  t.cols.isEmpty || t.nRows == 0

/-! ### Decimal text: digits, parsing, printing

`pd.to_numeric` turns numeric-looking text into numbers, and `to_csv`/`read_csv`
serialize numbers as decimal text.  We model both with an executable decimal
printer and parser over `ℚ`. -/

/-- The character for a decimal digit. -/
def digitChar (d : ℕ) : Char := Char.ofNat (48 + d)

/-- Decode a decimal digit character. -/
def charDigit? (c : Char) : Option ℕ :=
  if 48 ≤ c.toNat ∧ c.toNat ≤ 57 then some (c.toNat - 48) else none

/-- Accumulating decimal parse of a digit string (most significant first). -/
def parseDigitsAux : ℕ → List Char → Option ℕ
  | acc, [] => some acc
  | acc, c :: cs =>
    match charDigit? c with
    | some d => parseDigitsAux (acc * 10 + d) cs
    | none => none

/-- Parse a non-empty all-digit string as a natural number. -/
def parseDigits (l : List Char) : Option ℕ :=
  if l.isEmpty then none else parseDigitsAux 0 l

/-- Fueled digit extraction, most significant first (structural recursion so
that concrete values evaluate inside proofs). -/
def natCharsAux : ℕ → ℕ → List Char
  | 0, _ => []
  | _, 0 => []
  | fuel + 1, n + 1 => natCharsAux fuel ((n + 1) / 10) ++ [digitChar ((n + 1) % 10)]

/-- Digit characters of `n`, most significant first (empty for `0`). -/
def natChars (n : ℕ) : List Char := natCharsAux n n

/-- Decimal string of a natural number. -/
def natToStr (n : ℕ) : String := if n = 0 then "0" else String.mk (natChars n)

/-- Parse an unsigned decimal string, optionally with a fractional part. -/
def parseUnsigned (cs : List Char) : Option ℚ :=
  let ip := cs.takeWhile (fun c => c ≠ '.')
  match cs.dropWhile (fun c => c ≠ '.') with
  | [] => (parseDigits ip).map (fun n => (n : ℚ))
  | _ :: frac =>
    match parseDigits ip, parseDigits frac with
    | some i, some f => some ((i : ℚ) + (f : ℚ) / 10 ^ frac.length)
    | _, _ => none

/-- Parse a decimal string (optional leading minus sign) as a rational. -/
def parseQ (s : String) : Option ℚ :=
  match s.data with
  | [] => none
  | c :: rest =>
    if c = '-' then (parseUnsigned rest).map (fun q => -q)
    else parseUnsigned (c :: rest)

/-- Left-pad a digit string with zeros to the given width. -/
def padLeft (w : ℕ) (l : List Char) : List Char :=
  List.replicate (w - l.length) '0' ++ l

/-- Truncation of a rational to 12 decimal places — the value actually carried
by its decimal serialization. -/
def truncQ (q : ℚ) : ℚ := ((Int.floor (q * 10 ^ 12) : ℤ) : ℚ) / 10 ^ 12

/-- Decimal serialization of a rational, 12 fractional digits. -/
def printQ (q : ℚ) : String :=
  let n : ℤ := Int.floor (q * 10 ^ 12)
  let a : ℕ := n.natAbs
  let s := natToStr (a / 10 ^ 12) ++ "." ++ String.mk (padLeft 12 (natChars (a % 10 ^ 12)))
  if n < 0 then "-" ++ s else s

/-! ### Numeric coercion: `pd.to_numeric(..., errors="coerce")` -/

/-- One cell under `pd.to_numeric(errors="coerce")`: numbers pass through,
numeric-looking text is parsed, anything else becomes missing. -/
def toNumericCell : Cell → Cell
  | .num q => .num q
  | .str s =>
    match parseQ s with
    | some q => .num q
    | none => .na
  | .na => .na

/-- Column-wise numeric coercion. -/
def coerceCol (l : List Cell) : List Cell := l.map toNumericCell

/-- Numeric view of a cell (`NaN` for text, matching a post-coercion series). -/
def cellQ : Cell → Option ℚ
  | .num q => some q
  | _ => none

/-- Store an optional numeric value back as a cell. -/
def qCell : Option ℚ → Cell
  | some q => .num q
  | none => .na

/-! ### Column-role heuristics: `first_match` and `safe_index` -/

/-- ASCII lower-casing of a string, character by character (Python
`str.lower()` restricted to ASCII names). -/
def lowerStr (s : String) : String := String.mk (s.data.map Char.toLower)

/-- Python's `sub in name`: substring containment. -/
def strContains (name sub : String) : Bool := decide (sub.data <:+: name.data)

/-- Index of the first list element satisfying `p` (the `for i, x in
enumerate(...)` search loop). -/
def findFirst (p : String → Bool) : List String → Option ℕ
  | [] => none
  | x :: xs => if p x then some 0 else (findFirst p xs).map Nat.succ

/-- Inner loops of `first_match`: try each substring in priority order against
the pre-lowered names. -/
def firstMatchAux (cols lowered : List String) : List String → Option String
  | [] => none
  | sub :: rest =>
    match findFirst (fun name => strContains name sub) lowered with
    | some i => cols[i]?
    | none => firstMatchAux cols lowered rest

/-- `first_match(cols, substrings)`: first column whose lowercased name
contains one of the substrings (substrings in priority order, columns in
original order); `None` when nothing matches. -/
def first_match (cols substrings : List String) : Option String :=
  firstMatchAux cols (cols.map lowerStr) substrings

/-- `safe_index(options, value, offset, fallback)`: a plain selector index —
`offset + options.index(value)` when the lookup succeeds, the fallback on a
missing value or any lookup failure. -/
def safe_index (options : List String) (value : Option String)
    (offset fallback : ℕ) : ℕ :=
  match value with
  | none => fallback
  | some v =>
    match findFirst (fun x => x == v) options with
    | some i => offset + i
    | none => fallback

/-! ### Unit conversion (the `"°F"` branch) -/

/-- The declared unit of the raw temperature column. -/
inductive TUnit where
  | celsius
  | fahrenheit
deriving DecidableEq, Repr

/-- Elementwise scalar subtraction on a series, `NaN` propagating. -/
def seriesSub (s : List (Option ℚ)) (k : ℚ) : List (Option ℚ) :=
  s.map (Option.map (fun q => q - k))

/-- Elementwise scalar multiplication on a series, `NaN` propagating. -/
def seriesMul (s : List (Option ℚ)) (k : ℚ) : List (Option ℚ) :=
  s.map (Option.map (fun q => q * k))

/-- Elementwise scalar division on a series, `NaN` propagating. -/
def seriesDiv (s : List (Option ℚ)) (k : ℚ) : List (Option ℚ) :=
  s.map (Option.map (fun q => q / k))

/-- `work["Temperature_C"]`: `(work[temp_col] - 32) * 5.0 / 9.0` when the unit
is Fahrenheit, the temperature series unchanged otherwise. -/
def temperatureSeriesC (u : TUnit) (s : List (Option ℚ)) : List (Option ℚ) :=
  match u with
  | .fahrenheit => seriesDiv (seriesMul (seriesSub s 32) 5) 9
  | .celsius => s

/-! ### Plot frame and `dropna(how="all")` -/

/-- The plotting frame: Temperature (°C) plus, when a humidity column is
selected, Humidity (%).  The second component of a row is meaningful only when
`humSel` is true. -/
structure PlotFrame where
  humSel : Bool
  rows : List (Option ℚ × Option ℚ)
deriving DecidableEq, Repr

/-- Assemble `plot_df` from the Celsius series and (optionally) the humidity
series. -/
def buildPlot (humSel : Bool) (tempC hum : List (Option ℚ)) : PlotFrame :=
  ⟨humSel, if humSel then tempC.zip hum else tempC.map (fun t => (t, none))⟩

/-- A plot row in which every plotted series is missing. -/
def rowAllNa (humSel : Bool) (r : Option ℚ × Option ℚ) : Bool :=
  r.1.isNone && (!humSel || r.2.isNone)

/-- `plot_df.dropna(how="all")`: remove rows whose plotted series are all
missing. -/
def dropnaAll (pf : PlotFrame) : PlotFrame :=
  ⟨pf.humSel, pf.rows.filter (fun r => !rowAllNa pf.humSel r)⟩

/-! ### Statistics (KPIs) -/

/-- `series.mean()`: mean over the non-missing values (`NaN` when none). -/
def seriesMean (s : List (Option ℚ)) : Option ℚ :=
  let v := s.filterMap id
  if v.isEmpty then none else some (v.sum / v.length)

/-- `series.min()`: minimum over the non-missing values. -/
def seriesMin (s : List (Option ℚ)) : Option ℚ :=
  (s.filterMap id).foldr (fun q acc =>
    match acc with
    | none => some q
    | some m => some (min q m)) none

/-- `series.max()`: maximum over the non-missing values. -/
def seriesMax (s : List (Option ℚ)) : Option ℚ :=
  (s.filterMap id).foldr (fun q acc =>
    match acc with
    | none => some q
    | some m => some (max q m)) none

/-! ### Selections and the processing pipeline -/

/-- The sidebar selections: temperature column, humidity column (sentinel
`"<none>"`), unit, x-axis column (sentinel `"<index>"`). -/
structure Selections where
  tempCol : String
  humCol : String
  unit : TUnit
  xCol : String
deriving DecidableEq, Repr

/-- Default selections computed by the heuristics (lines 71–92 of `run.py`):
each selectbox starts at `options[index]` for the index produced by
`safe_index` from the `first_match` guess. -/
def defaultSelections (df : Table) (u : TUnit) : Selections :=
  let cols := df.header
  let temp_guess := first_match cols ["temp"]
  let hum_guess := first_match cols ["hum"]
  let x_guess := first_match cols ["date", "time", "day", "timestamp"]
  let temp_idx := safe_index cols temp_guess 0 0
  let hum_options := "<none>" :: cols
  let hum_idx := safe_index cols hum_guess 1 0
  let x_options := "<index>" :: cols
  let x_idx := safe_index cols x_guess 1 0
  { tempCol := cols.getD temp_idx ""
    humCol := hum_options.getD hum_idx "<none>"
    unit := u
    xCol := x_options.getD x_idx "<index>" }

/-- Invariant the humidity selectbox guarantees: the selection is either the
`"<none>"` sentinel or one of the table's columns. -/
def HumOk (df : Table) (sel : Selections) : Prop :=
  sel.humCol = "<none>" ∨ sel.humCol ∈ df.header

instance (df : Table) (sel : Selections) : Decidable (HumOk df sel) := by
  unfold HumOk
  infer_instance

/-- The two terminal data errors the page can report before showing stats. -/
inductive PipeError where
  | emptyInput
  | noUsableData
deriving DecidableEq, Repr

/-- Everything the page produces on success: the working table, the cleaned
plot frame, the three KPIs, and the download payload. -/
structure Result where
  work : Table
  plot : PlotFrame
  avgTemp : Option ℚ
  minTemp : Option ℚ
  maxTemp : Option ℚ
  out : Table
  fileName : String
  mime : String
deriving DecidableEq, Repr

/-- Lines 97–102: copy the frame and coerce the chosen temperature column —
and the chosen humidity column when one is selected — to numeric. -/
def coercedTable (df : Table) (sel : Selections) : Table :=
  let w := df.setCol sel.tempCol (coerceCol (df.getColD sel.tempCol))
  if sel.humCol ≠ "<none>" then
    w.setCol sel.humCol (coerceCol (w.getColD sel.humCol))
  else w

/-- Lines 105–108: the Celsius series, converted from °F when needed. -/
def tempCSeries (df : Table) (sel : Selections) : List (Option ℚ) :=
  temperatureSeriesC sel.unit (((coercedTable df sel).getColD sel.tempCol).map cellQ)

/-- The working table after `work["Temperature_C"] = ...`. -/
def workTable (df : Table) (sel : Selections) : Table :=
  (coercedTable df sel).setCol "Temperature_C" ((tempCSeries df sel).map qCell)

/-- Lines 111–113: the plot frame before row dropping. -/
def plotFrame0 (df : Table) (sel : Selections) : PlotFrame :=
  buildPlot (sel.humCol ≠ "<none>") (tempCSeries df sel)
    (((workTable df sel).getColD sel.humCol).map cellQ)

/-- Line 124: the plot frame after `dropna(how="all")`. -/
def plotFrame (df : Table) (sel : Selections) : PlotFrame :=
  dropnaAll (plotFrame0 df sel)

/-- Lines 165–166: the download table — the working table with the Celsius
series copied into a `Temperature (°C)` column. -/
def outTable (df : Table) (sel : Selections) : Table :=
  (workTable df sel).setCol "Temperature (°C)"
    ((workTable df sel).getColD "Temperature_C")

/-- The temperature series of the cleaned plot frame. -/
def plotTemps (df : Table) (sel : Selections) : List (Option ℚ) :=
  (plotFrame df sel).rows.map Prod.fst

/-- The whole page as a function: empty-table check, clean, no-usable-data
check, then KPIs and export payload. -/
def pipeline (df : Table) (sel : Selections) : Except PipeError Result :=
  if df.isEmptyTable then .error .emptyInput
  else if (plotFrame df sel).rows.isEmpty
      || ((plotTemps df sel).filterMap id).isEmpty then .error .noUsableData
  else .ok
    { work := workTable df sel
      plot := plotFrame df sel
      avgTemp := seriesMean (plotTemps df sel)
      minTemp := seriesMin (plotTemps df sel)
      maxTemp := seriesMax (plotTemps df sel)
      out := outTable df sel
      fileName := "weather_processed.csv"
      mime := "text/csv" }

/-! ### CSV serialization (`out.to_csv(buf, index=False)`) and re-parsing

The byte stream is modelled at record granularity: a CSV text is a list of
records, each a list of field strings (the comma/newline layer of the format is
injective on such records).  `read_csv`'s blank-line skipping shows up as
dropping records that would have serialized to an empty line. -/

/-- One field of CSV output. -/
def encodeCell : Cell → String
  | .num q => printQ q
  | .str s => s
  | .na => ""

/-- `to_csv(index=False)`: a header record followed by one record per row. -/
def encodeTable (t : Table) : List (List String) :=
  t.header :: (List.range t.nRows).map
    (fun i => t.cols.map (fun c => encodeCell (c.2.getD i .na)))

/-- One field under the loader's typing: empty → missing, numeric text →
number, other text kept as text. -/
def parseCell (s : String) : Cell :=
  if s = "" then .na
  else
    match parseQ s with
    | some q => .num q
    | none => .str s

/-- A record whose serialized form is a blank line (at most one field, all
empty): `read_csv` skips such lines. -/
def blankRecord (r : List String) : Bool :=
  r.length ≤ 1 && r.all (fun f => f = "")

/-- Re-parse records into a table: first surviving record is the header, the
rest are rows; short rows pad with missing. -/
def parseTable (records : List (List String)) : Table :=
  match records.filter (fun r => !blankRecord r) with
  | [] => ⟨[]⟩
  | h :: rows =>
    ⟨(h.zip (List.range h.length)).map
      (fun nj => (nj.1, rows.map (fun r => parseCell (r.getD nj.2 ""))))⟩

/-! ### Spec-side definitions and concrete example tables -/

/-- Spec wording of the row-dropping rule (section 4.3 step 6): a row is kept
iff some plotted series is present.  Compared against the code's
`dropna(how="all")` filter. -/
def rowKeptSpec (humSel : Bool) (r : Option ℚ × Option ℚ) : Bool :=
  r.1.isSome || (humSel && r.2.isSome)

/-- The spec scenario table: rows `{temp:32, hum:50}` and `{temp:212, hum:10}`. -/
def exT8 : Table := ⟨[("temp", [.num 32, .num 212]), ("hum", [.num 50, .num 10])]⟩

/-- A table whose temperature column is entirely non-numeric text. -/
def exTextDf : Table := ⟨[("temp", [.str "hot", .str "cold"])]⟩

/-- A one-column table used to exhibit the exported header shape. -/
def exDfC6 : Table := ⟨[("temp", [.num 5])]⟩

/-- A table with an original column named `Temperature_C`, which the pipeline
overwrites. -/
def exDfC10 : Table := ⟨[("temp", [.num 1]), ("Temperature_C", [.str "x"])]⟩

/-- A table with non-numeric text mixed into the temperature and humidity
columns. -/
def exDfMix : Table :=
  ⟨[("temp", [.num 32, .str "abc"]), ("hum", [.str "50", .na])]⟩

/-- A table with a row whose plotted series are all missing (row 3). -/
def exDfDrop : Table :=
  ⟨[("temp", [.num 32, .num 212, .str "x"]), ("hum", [.num 50, .na, .na])]⟩

/-! ## Helper lemmas -/

theorem findFirst_eq_none {p : String → Bool} :
    ∀ {l : List String}, findFirst p l = none ↔ ∀ x ∈ l, p x = false := by
  intro l
  induction l with
  | nil => simp [findFirst]
  | cons x xs ih =>
    by_cases hx : p x
    · simp [findFirst, hx]
    · simp only [findFirst, if_neg hx, List.mem_cons]
      rw [Option.map_eq_none']
      simp only [Bool.not_eq_true] at hx
      constructor
      · intro h y hy
        rcases hy with rfl | hy
        · exact hx
        · exact ih.mp h y hy
      · intro h
        exact ih.mpr (fun y hy => h y (Or.inr hy))

theorem findFirst_eq_some {p : String → Bool} :
    ∀ {l : List String} {i : ℕ}, findFirst p l = some i →
      ∃ hi : i < l.length, p (l.get ⟨i, hi⟩) = true ∧
        ∀ j, ∀ hj : j < l.length, j < i → p (l.get ⟨j, hj⟩) = false := by
  intro l
  induction l with
  | nil => intro i h; simp [findFirst] at h
  | cons x xs ih =>
    intro i h
    by_cases hx : p x
    · simp only [findFirst, if_pos hx] at h
      obtain rfl : (0 : ℕ) = i := Option.some.inj h
      exact ⟨Nat.succ_pos _, hx, fun j hj hji => absurd hji (Nat.not_lt_zero j)⟩
    · simp only [findFirst, if_neg hx] at h
      rw [Option.map_eq_some'] at h
      obtain ⟨i0, hi0, rfl⟩ := h
      obtain ⟨hlt, hp, hbefore⟩ := ih hi0
      refine ⟨Nat.succ_lt_succ hlt, hp, ?_⟩
      intro j hj hji
      cases j with
      | zero => simpa using Bool.not_eq_true (p x) |>.mp hx
      | succ k =>
        exact hbefore k (Nat.lt_of_succ_lt_succ hj) (Nat.lt_of_succ_lt_succ hji)

theorem strContains_iff (name sub : String) :
    strContains name sub = true ↔ sub.data <:+: name.data := by
  simp [strContains]

theorem firstMatchAux_eq_none (cols : List String) :
    ∀ subs : List String, firstMatchAux cols (cols.map lowerStr) subs = none ↔
      ∀ s ∈ subs, ∀ c ∈ cols, ¬(s.data <:+: (lowerStr c).data) := by
  intro subs
  induction subs with
  | nil => simp [firstMatchAux]
  | cons sub rest ih =>
    cases h : findFirst (fun name => strContains name sub) (cols.map lowerStr) with
    | some i =>
      obtain ⟨hi, hp, -⟩ := findFirst_eq_some h
      rw [List.length_map] at hi
      simp only [firstMatchAux, h]
      constructor
      · intro hcontr
        rw [List.getElem?_eq_getElem hi] at hcontr
        exact absurd hcontr (by simp)
      · intro hall
        exfalso
        refine hall sub (List.mem_cons_self _ _) (cols.get ⟨i, hi⟩) (List.get_mem _ _ _) ?_
        rw [← strContains_iff]
        simpa [List.get_eq_getElem, List.getElem_map] using hp
    | none =>
      have hhead : ∀ c ∈ cols, ¬(sub.data <:+: (lowerStr c).data) := by
        intro c hc hinf
        have := (findFirst_eq_none.mp h) (lowerStr c) (List.mem_map_of_mem _ hc)
        rw [← strContains_iff] at hinf
        simp [this] at hinf
      simp only [firstMatchAux, h, ih, List.mem_cons]
      constructor
      · intro hrest s hs c hc
        rcases hs with rfl | hs
        · exact hhead c hc
        · exact hrest s hs c hc
      · intro hall s hs c hc
        exact hall s (Or.inr hs) c hc

theorem firstMatchAux_eq_some (cols : List String) :
    ∀ (subs : List String) (c : String),
      firstMatchAux cols (cols.map lowerStr) subs = some c →
      ∃ j, ∃ hj : j < subs.length, ∃ i, ∃ hi : i < cols.length,
        c = cols.get ⟨i, hi⟩ ∧
        (subs.get ⟨j, hj⟩).data <:+: (lowerStr (cols.get ⟨i, hi⟩)).data ∧
        (∀ i', ∀ hi' : i' < cols.length, i' < i →
          ¬((subs.get ⟨j, hj⟩).data <:+: (lowerStr (cols.get ⟨i', hi'⟩)).data)) ∧
        ∀ j', ∀ hj' : j' < subs.length, j' < j → ∀ c' ∈ cols,
          ¬((subs.get ⟨j', hj'⟩).data <:+: (lowerStr c').data) := by
  intro subs
  induction subs with
  | nil => intro c h; simp [firstMatchAux] at h
  | cons sub rest ih =>
    intro c h
    cases hf : findFirst (fun name => strContains name sub) (cols.map lowerStr) with
    | some i =>
      obtain ⟨hi, hp, hbefore⟩ := findFirst_eq_some hf
      rw [List.length_map] at hi
      simp only [firstMatchAux, hf] at h
      rw [List.getElem?_eq_getElem hi] at h
      obtain rfl : c = cols[i] := (Option.some.inj h).symm
      refine ⟨0, Nat.succ_pos _, i, hi, by simp [List.get_eq_getElem], ?_, ?_, ?_⟩
      · rw [← strContains_iff]
        simpa [List.get_eq_getElem, List.getElem_map] using hp
      · intro i' hi' hlt hinf
        have := hbefore i' (by simpa using hi') hlt
        rw [← strContains_iff] at hinf
        simp only [List.get_eq_getElem, List.getElem_map] at this hinf
        simp [this] at hinf
      · intro j' hj' hlt
        exact absurd hlt (Nat.not_lt_zero j')
    | none =>
      have hhead : ∀ c' ∈ cols, ¬(sub.data <:+: (lowerStr c').data) := by
        intro c' hc' hinf
        have := (findFirst_eq_none.mp hf) (lowerStr c') (List.mem_map_of_mem _ hc')
        rw [← strContains_iff] at hinf
        simp [this] at hinf
      simp only [firstMatchAux, hf] at h
      obtain ⟨j, hj, i, hi, hc, hinf, hfirst, hprior⟩ := ih c h
      refine ⟨j + 1, Nat.succ_lt_succ hj, i, hi, hc, ?_, ?_, ?_⟩
      · simpa [List.get_eq_getElem] using hinf
      · intro i' hi' hlt
        simpa [List.get_eq_getElem] using hfirst i' hi' hlt
      · intro j' hj' hlt c' hc'
        cases j' with
        | zero => simpa [List.get_eq_getElem] using hhead c' hc'
        | succ k =>
          simpa [List.get_eq_getElem] using
            hprior k (Nat.lt_of_succ_lt_succ hj') (Nat.lt_of_succ_lt_succ hlt) c' hc'

/-! ### Table manipulation lemmas -/

theorem find?_setColAux_self (n : String) (v : List Cell) :
    ∀ L : List (String × List Cell),
      ((setColAux n v L).find? (fun c => c.1 == n)).map Prod.snd = some v
  | [] => by simp [setColAux]
  | c :: cs => by
    by_cases h : c.1 = n
    · simp [setColAux, h]
    · rw [setColAux, if_neg h, List.find?_cons_of_neg _ (by simpa using h)]
      exact find?_setColAux_self n v cs

theorem find?_setColAux_ne (n : String) (v : List Cell) (m : String) (hmn : m ≠ n) :
    ∀ L : List (String × List Cell),
      (setColAux n v L).find? (fun c => c.1 == m) = L.find? (fun c => c.1 == m)
  | [] => by simp [setColAux, hmn.symm]
  | c :: cs => by
    by_cases h : c.1 = n
    · rw [setColAux, if_pos h, List.find?_cons_of_neg _ (by simpa using hmn.symm),
        List.find?_cons_of_neg _ (by simp [h, hmn.symm])]
    · by_cases hm : c.1 = m
      · rw [setColAux, if_neg h, List.find?_cons_of_pos _ (by simpa using hm),
          List.find?_cons_of_pos _ (by simpa using hm)]
      · rw [setColAux, if_neg h, List.find?_cons_of_neg _ (by simpa using hm),
          List.find?_cons_of_neg _ (by simpa using hm)]
        exact find?_setColAux_ne n v m hmn cs

theorem mem_setColAux (n : String) (v : List Cell) :
    ∀ (L : List (String × List Cell)) (c), c ∈ setColAux n v L → c = (n, v) ∨ c ∈ L
  | [], c, hc => by simpa [setColAux] using hc
  | d :: cs, c, hc => by
    by_cases h : d.1 = n
    · rw [setColAux, if_pos h] at hc
      rcases List.mem_cons.mp hc with rfl | hc
      · exact Or.inl rfl
      · exact Or.inr (List.mem_cons_of_mem _ hc)
    · rw [setColAux, if_neg h] at hc
      rcases List.mem_cons.mp hc with rfl | hc
      · exact Or.inr (List.mem_cons_self _ _)
      · rcases mem_setColAux n v cs c hc with h1 | h1
        · exact Or.inl h1
        · exact Or.inr (List.mem_cons_of_mem _ h1)

theorem map_fst_setColAux_of_mem (n : String) (v : List Cell) :
    ∀ L : List (String × List Cell), n ∈ L.map Prod.fst →
      (setColAux n v L).map Prod.fst = L.map Prod.fst
  | [], h => by simp at h
  | c :: cs, h => by
    by_cases hc : c.1 = n
    · rw [setColAux, if_pos hc]
      simp [hc]
    · rw [setColAux, if_neg hc]
      rw [List.map_cons] at h
      have : n ∈ cs.map Prod.fst := by
        rcases List.mem_cons.mp h with h1 | h1
        · exact absurd h1.symm hc
        · exact h1
      simp [map_fst_setColAux_of_mem n v cs this]

theorem map_fst_setColAux_of_notMem (n : String) (v : List Cell) :
    ∀ L : List (String × List Cell), n ∉ L.map Prod.fst →
      (setColAux n v L).map Prod.fst = L.map Prod.fst ++ [n]
  | [], _ => by simp [setColAux]
  | c :: cs, h => by
    have hc : c.1 ≠ n := fun he => h (by simp [he])
    have hcs : n ∉ cs.map Prod.fst := fun he => h (by simp [he])
    rw [setColAux, if_neg hc]
    simp [map_fst_setColAux_of_notMem n v cs hcs]

theorem getCol?_setCol_self (t : Table) (n : String) (v : List Cell) :
    (t.setCol n v).getCol? n = some v :=
  find?_setColAux_self n v t.cols

theorem getColD_setCol_self (t : Table) (n : String) (v : List Cell) :
    (t.setCol n v).getColD n = v := by
  simp [Table.getColD, getCol?_setCol_self]

theorem getCol?_setCol_ne (t : Table) (n : String) (v : List Cell) (m : String)
    (hmn : m ≠ n) : (t.setCol n v).getCol? m = t.getCol? m := by
  unfold Table.getCol? Table.setCol
  rw [find?_setColAux_ne n v m hmn]

theorem header_setCol_of_mem (t : Table) (n : String) (v : List Cell)
    (h : n ∈ t.header) : (t.setCol n v).header = t.header :=
  map_fst_setColAux_of_mem n v t.cols h

theorem header_setCol_of_notMem (t : Table) (n : String) (v : List Cell)
    (h : n ∉ t.header) : (t.setCol n v).header = t.header ++ [n] :=
  map_fst_setColAux_of_notMem n v t.cols h

theorem mem_header_setCol_self (t : Table) (n : String) (v : List Cell) :
    n ∈ (t.setCol n v).header := by
  by_cases h : n ∈ t.header
  · rw [header_setCol_of_mem t n v h]; exact h
  · rw [header_setCol_of_notMem t n v h]; simp

theorem mem_header_setCol_of_mem (t : Table) (n : String) (v : List Cell)
    {m : String} (h : m ∈ t.header) : m ∈ (t.setCol n v).header := by
  by_cases hn : n ∈ t.header
  · rw [header_setCol_of_mem t n v hn]; exact h
  · rw [header_setCol_of_notMem t n v hn]; exact List.mem_append_left _ h

theorem setCol_cols_ne_nil (t : Table) (n : String) (v : List Cell) :
    (t.setCol n v).cols ≠ [] := by
  unfold Table.setCol
  cases hL : t.cols with
  | nil => simp [setColAux]
  | cons c cs =>
    by_cases h : c.1 = n <;> simp [setColAux, h]

theorem nRows_setCol (t : Table) (n : String) (v : List Cell)
    (hne : t.cols ≠ []) (hv : v.length = t.nRows) : (t.setCol n v).nRows = t.nRows := by
  obtain ⟨L⟩ := t
  unfold Table.setCol
  cases L with
  | nil => simp at hne
  | cons c cs =>
    by_cases h : c.1 = n
    · rw [setColAux, if_pos h]
      simpa [Table.nRows] using hv
    · rw [setColAux, if_neg h]
      rfl

theorem getCol?_some_mem (t : Table) (n : String) (v : List Cell)
    (h : t.getCol? n = some v) : (n, v) ∈ t.cols := by
  unfold Table.getCol? at h
  rw [Option.map_eq_some'] at h
  obtain ⟨c, hc, rfl⟩ := h
  have h1 : c.1 = n := by simpa using List.find?_some hc
  have h2 : c ∈ t.cols := List.mem_of_find?_eq_some hc
  rw [show c = (c.1, c.2) from rfl, h1] at h2
  exact h2

theorem getCol?_isSome_of_mem_header (t : Table) (n : String) (h : n ∈ t.header) :
    ∃ v, t.getCol? n = some v := by
  obtain ⟨c, hc, h1⟩ := List.mem_map.mp h
  cases hf : t.cols.find? (fun c => c.1 == n) with
  | none =>
    exfalso
    have := List.find?_eq_none.mp hf c hc
    simp [h1] at this
  | some d => exact ⟨d.2, by simp [Table.getCol?, hf]⟩

theorem getColD_length (t : Table) (n : String) (hwf : t.Wf) (h : n ∈ t.header) :
    (t.getColD n).length = t.nRows := by
  obtain ⟨v, hv⟩ := getCol?_isSome_of_mem_header t n h
  have := hwf.1 (n, v) (getCol?_some_mem t n v hv)
  simpa [Table.getColD, hv] using this

theorem wf_setCol (t : Table) (n : String) (v : List Cell) (hwf : t.Wf)
    (hne : t.cols ≠ []) (hv : v.length = t.nRows) : (t.setCol n v).Wf := by
  constructor
  · intro c hc
    rw [nRows_setCol t n v hne hv]
    rcases mem_setColAux n v t.cols c hc with rfl | hc
    · exact hv
    · exact hwf.1 c hc
  · by_cases h : n ∈ t.header
    · rw [header_setCol_of_mem t n v h]
      exact hwf.2
    · rw [header_setCol_of_notMem t n v h]
      exact List.Nodup.append hwf.2 (List.nodup_singleton n) (by simpa using h)

theorem two_le_length_of_mem_ne {l : List String} {a b : String}
    (ha : a ∈ l) (hb : b ∈ l) (hab : a ≠ b) : 2 ≤ l.length := by
  match l with
  | [] => simp at ha
  | [x] =>
    rw [List.mem_singleton] at ha hb
    exact absurd (ha.trans hb.symm) hab
  | x :: y :: rest => simp [Nat.succ_le_succ, Nat.succ_le_succ_iff]

/-! ### Pipeline chain lemmas -/

theorem length_temperatureSeriesC (u : TUnit) (s : List (Option ℚ)) :
    (temperatureSeriesC u s).length = s.length := by
  cases u <;> simp [temperatureSeriesC, seriesDiv, seriesMul, seriesSub]

theorem toNumericCell_idem (c : Cell) : toNumericCell (toNumericCell c) = toNumericCell c := by
  cases c with
  | num q => rfl
  | na => rfl
  | str s => cases h : parseQ s <;> simp [toNumericCell, h]

theorem coerceCol_idem (l : List Cell) : coerceCol (coerceCol l) = coerceCol l := by
  simp [coerceCol, List.map_map, Function.comp_def, toNumericCell_idem]

theorem coercedTable_facts (df : Table) (sel : Selections) (hwf : df.Wf)
    (hne : df.cols ≠ []) (htemp : sel.tempCol ∈ df.header) (hhum : HumOk df sel) :
    (coercedTable df sel).header = df.header ∧ (coercedTable df sel).nRows = df.nRows ∧
    (coercedTable df sel).Wf ∧ (coercedTable df sel).cols ≠ [] := by
  have hlen : (coerceCol (df.getColD sel.tempCol)).length = df.nRows := by
    simpa [coerceCol] using getColD_length df sel.tempCol hwf htemp
  set t1 := df.setCol sel.tempCol (coerceCol (df.getColD sel.tempCol)) with ht1
  have h1hdr : t1.header = df.header := header_setCol_of_mem df _ _ htemp
  have h1rows : t1.nRows = df.nRows := nRows_setCol df _ _ hne hlen
  have h1wf : t1.Wf := wf_setCol df _ _ hwf hne hlen
  have h1ne : t1.cols ≠ [] := setCol_cols_ne_nil df _ _
  by_cases hh : sel.humCol = "<none>"
  · have : coercedTable df sel = t1 := by
      simp [coercedTable, hh, ht1]
    rw [this]
    exact ⟨h1hdr, h1rows, h1wf, h1ne⟩
  · have hmem : sel.humCol ∈ t1.header := by
      rw [h1hdr]
      exact hhum.resolve_left hh
    have hlen2 : (coerceCol (t1.getColD sel.humCol)).length = t1.nRows := by
      simpa [coerceCol] using getColD_length t1 sel.humCol h1wf hmem
    have : coercedTable df sel = t1.setCol sel.humCol (coerceCol (t1.getColD sel.humCol)) := by
      simp [coercedTable, hh, ht1]
    rw [this]
    exact ⟨by rw [header_setCol_of_mem t1 _ _ hmem, h1hdr],
      by rw [nRows_setCol t1 _ _ h1ne hlen2, h1rows],
      wf_setCol t1 _ _ h1wf h1ne hlen2, setCol_cols_ne_nil t1 _ _⟩

theorem tempCSeries_length (df : Table) (sel : Selections) (hwf : df.Wf)
    (hne : df.cols ≠ []) (htemp : sel.tempCol ∈ df.header) (hhum : HumOk df sel) :
    (tempCSeries df sel).length = df.nRows := by
  obtain ⟨hhdr, hrows, hcwf, -⟩ := coercedTable_facts df sel hwf hne htemp hhum
  rw [tempCSeries, length_temperatureSeriesC, List.length_map]
  rw [getColD_length _ _ hcwf (hhdr ▸ htemp), hrows]

theorem workTable_facts (df : Table) (sel : Selections) (hwf : df.Wf)
    (hne : df.cols ≠ []) (htemp : sel.tempCol ∈ df.header) (hhum : HumOk df sel) :
    (workTable df sel).nRows = df.nRows ∧ (workTable df sel).Wf ∧
    (workTable df sel).cols ≠ [] ∧
    (workTable df sel).getCol? "Temperature_C" = some ((tempCSeries df sel).map qCell) := by
  obtain ⟨hhdr, hrows, hcwf, hcne⟩ := coercedTable_facts df sel hwf hne htemp hhum
  have hlen : ((tempCSeries df sel).map qCell).length = (coercedTable df sel).nRows := by
    rw [List.length_map, tempCSeries_length df sel hwf hne htemp hhum, hrows]
  exact ⟨by rw [workTable, nRows_setCol _ _ _ hcne hlen, hrows],
    wf_setCol _ _ _ hcwf hcne hlen, setCol_cols_ne_nil _ _ _,
    getCol?_setCol_self _ _ _⟩

theorem outTable_facts (df : Table) (sel : Selections) (hwf : df.Wf)
    (hne : df.cols ≠ []) (htemp : sel.tempCol ∈ df.header) (hhum : HumOk df sel) :
    (outTable df sel).nRows = df.nRows ∧ (outTable df sel).Wf ∧
    (outTable df sel).getCol? "Temperature (°C)" = some ((tempCSeries df sel).map qCell) ∧
    2 ≤ (outTable df sel).cols.length := by
  obtain ⟨hwrows, hwwf, hwne, hwget⟩ := workTable_facts df sel hwf hne htemp hhum
  have hgetD : (workTable df sel).getColD "Temperature_C" = (tempCSeries df sel).map qCell := by
    simp [Table.getColD, hwget]
  have hlen : ((workTable df sel).getColD "Temperature_C").length = (workTable df sel).nRows := by
    rw [hgetD, List.length_map, tempCSeries_length df sel hwf hne htemp hhum, hwrows]
  have hmemTC : "Temperature_C" ∈ (workTable df sel).header :=
    mem_header_setCol_self _ _ _
  have hmemC : "Temperature (°C)" ∈ (outTable df sel).header :=
    mem_header_setCol_self _ _ _
  have hmemTC2 : "Temperature_C" ∈ (outTable df sel).header :=
    mem_header_setCol_of_mem _ _ _ hmemTC
  refine ⟨by rw [outTable, nRows_setCol _ _ _ hwne hlen, hwrows],
    wf_setCol _ _ _ hwwf hwne hlen, ?_, ?_⟩
  · rw [outTable, hgetD]
    exact getCol?_setCol_self _ _ _
  · have := two_le_length_of_mem_ne hmemC hmemTC2 (by decide)
    simpa [Table.header] using this

/-! ### Decimal printing/parsing lemmas -/

theorem charDigit?_digitChar {d : ℕ} (h : d < 10) : charDigit? (digitChar d) = some d := by
  interval_cases d <;> decide

theorem digitChar_ne_dot {d : ℕ} (h : d < 10) : digitChar d ≠ '.' := by
  interval_cases d <;> decide

theorem digitChar_ne_dash {d : ℕ} (h : d < 10) : digitChar d ≠ '-' := by
  interval_cases d <;> decide

theorem parseDigitsAux_map_digitChar :
    ∀ (l : List ℕ), (∀ d ∈ l, d < 10) → ∀ acc : ℕ,
      parseDigitsAux acc (l.map digitChar) = some (l.foldl (fun a d => a * 10 + d) acc)
  | [], _, acc => rfl
  | d :: ds, hl, acc => by
    simp only [List.map_cons, parseDigitsAux,
      charDigit?_digitChar (hl d (List.mem_cons_self d ds))]
    rw [parseDigitsAux_map_digitChar ds (fun x hx => hl x (List.mem_cons_of_mem _ hx)) (acc * 10 + d)]
    rfl

theorem foldl_reverse_digits (l : List ℕ) :
    ∀ acc : ℕ, l.reverse.foldl (fun a d => a * 10 + d) acc
      = acc * 10 ^ l.length + Nat.ofDigits 10 l := by
  induction l with
  | nil => intro acc; simp [Nat.ofDigits_nil]
  | cons d ds ih =>
    intro acc
    rw [List.reverse_cons, List.foldl_append, ih acc]
    simp only [List.foldl_cons, List.foldl_nil, Nat.ofDigits_cons, List.length_cons]
    ring

theorem natCharsAux_eq :
    ∀ (fuel n : ℕ), n ≤ fuel → natCharsAux fuel n = (Nat.digits 10 n).reverse.map digitChar
  | 0, n, hn => by
    obtain rfl : n = 0 := Nat.le_zero.mp hn
    simp [natCharsAux]
  | fuel + 1, 0, _ => by simp [natCharsAux]
  | fuel + 1, m + 1, hn => by
    rw [natCharsAux, natCharsAux_eq fuel ((m + 1) / 10)
      (le_trans (Nat.le_of_lt_succ (Nat.div_lt_self (Nat.succ_pos m) (by norm_num)))
        (Nat.le_of_succ_le_succ hn))]
    rw [Nat.digits_def' (by norm_num : (1 : ℕ) < 10) (Nat.succ_pos m)]
    rw [List.reverse_cons, List.map_append]
    rfl

theorem natChars_eq (n : ℕ) : natChars n = (Nat.digits 10 n).reverse.map digitChar :=
  natCharsAux_eq n n le_rfl

theorem parseDigits_natChars {n : ℕ} (hn : n ≠ 0) : parseDigits (natChars n) = some n := by
  have hdig : ∀ d ∈ (Nat.digits 10 n).reverse, d < 10 := fun d hd =>
    Nat.digits_lt_base (by norm_num) (List.mem_reverse.mp hd)
  have hnil : (Nat.digits 10 n) ≠ [] := Nat.digits_ne_nil_iff_ne_zero.mpr hn
  rw [natChars_eq, parseDigits, if_neg (by simp [hnil])]
  rw [parseDigitsAux_map_digitChar _ hdig 0, foldl_reverse_digits, Nat.ofDigits_digits]
  simp

theorem parseDigits_natToStr (n : ℕ) : parseDigits (natToStr n).data = some n := by
  by_cases h : n = 0
  · subst h; decide
  · rw [natToStr, if_neg h]
    exact parseDigits_natChars h

theorem parseDigitsAux_replicate_zero (k : ℕ) :
    ∀ cs : List Char, parseDigitsAux 0 (List.replicate k '0' ++ cs) = parseDigitsAux 0 cs := by
  induction k with
  | zero => intro cs; rfl
  | succ k ih =>
    intro cs
    rw [List.replicate_succ, List.cons_append, parseDigitsAux]
    simpa using ih cs

theorem natChars_len_le {m : ℕ} (h : m < 10 ^ 12) : (natChars m).length ≤ 12 := by
  rw [natChars_eq, List.length_map, List.length_reverse]
  by_cases hm : m = 0
  · subst hm; simp
  · have h1 : 10 ^ (Nat.digits 10 m).length ≤ 10 * m :=
      Nat.base_pow_length_digits_le 10 m (by norm_num) hm
    have he : (10 : ℕ) ^ 13 = 10 * 10 ^ 12 := by norm_num
    have h2 : 10 ^ (Nat.digits 10 m).length < 10 ^ 13 := by
      refine lt_of_le_of_lt h1 ?_
      rw [he]
      exact mul_lt_mul_of_pos_left h (by norm_num)
    have := (Nat.pow_lt_pow_iff_right (by norm_num : 1 < 10)).mp h2
    omega

theorem length_padLeft_natChars {m : ℕ} (h : m < 10 ^ 12) :
    (padLeft 12 (natChars m)).length = 12 := by
  rw [padLeft, List.length_append, List.length_replicate]
  have := natChars_len_le h
  omega

theorem parseDigits_padLeft {m : ℕ} (h : m < 10 ^ 12) :
    parseDigits (padLeft 12 (natChars m)) = some m := by
  have hlen : (padLeft 12 (natChars m)).length = 12 := length_padLeft_natChars h
  rw [parseDigits, if_neg (by simp [← List.length_eq_zero, hlen])]
  rw [padLeft, parseDigitsAux_replicate_zero]
  by_cases hm : m = 0
  · subst hm
    simp [natChars, natCharsAux, parseDigitsAux]
  · have := parseDigits_natChars hm
    rw [parseDigits, if_neg (by
      simp [natChars_eq, Nat.digits_ne_nil_iff_ne_zero.mpr hm])] at this
    exact this

theorem data_append (a b : String) : (a ++ b).data = a.data ++ b.data := rfl

theorem natToStr_all_digits (n : ℕ) :
    ∀ c ∈ (natToStr n).data, ∃ d, d < 10 ∧ c = digitChar d := by
  intro c hc
  by_cases h : n = 0
  · subst h
    have : c = '0' := by simpa [natToStr] using hc
    exact ⟨0, by norm_num, by rw [this]; rfl⟩
  · rw [natToStr, if_neg h,
      show (String.mk (natChars n)).data = natChars n from rfl, natChars_eq] at hc
    obtain ⟨d, hd, rfl⟩ := List.mem_map.mp hc
    exact ⟨d, Nat.digits_lt_base (by norm_num) (List.mem_reverse.mp hd), rfl⟩

theorem natToStr_ne_nil (n : ℕ) : (natToStr n).data ≠ [] := by
  by_cases h : n = 0
  · subst h; decide
  · rw [natToStr, if_neg h]
    show natChars n ≠ []
    rw [natChars_eq]
    simp [Nat.digits_ne_nil_iff_ne_zero.mpr h]

theorem takeWhile_dot (l r : List Char) (hl : ∀ x ∈ l, x ≠ '.') :
    (l ++ '.' :: r).takeWhile (fun c => c ≠ '.') = l ∧
    (l ++ '.' :: r).dropWhile (fun c => c ≠ '.') = '.' :: r := by
  induction l with
  | nil => constructor <;> simp
  | cons x xs ih =>
    have hx : x ≠ '.' := hl x (List.mem_cons_self _ _)
    obtain ⟨h1, h2⟩ := ih (fun y hy => hl y (List.mem_cons_of_mem _ hy))
    constructor
    · simp only [List.cons_append, List.takeWhile_cons, h1]
      simp [hx]
    · simp only [List.cons_append, List.dropWhile_cons, h2]
      simp [hx]

theorem parseUnsigned_core (a : ℕ) :
    parseUnsigned ((natToStr (a / 10 ^ 12)).data ++ '.' :: padLeft 12 (natChars (a % 10 ^ 12)))
      = some ((a : ℚ) / 10 ^ 12) := by
  have hE : (0 : ℚ) < 10 ^ 12 := by norm_num
  have hfp10 : a % 10 ^ 12 < 10 ^ 12 := Nat.mod_lt _ (by norm_num)
  obtain ⟨ht, hd⟩ := takeWhile_dot (natToStr (a / 10 ^ 12)).data
    (padLeft 12 (natChars (a % 10 ^ 12)))
    (fun x hx => by
      obtain ⟨d, hd10, rfl⟩ := natToStr_all_digits _ x hx
      exact digitChar_ne_dot hd10)
  simp only [parseUnsigned, ht, hd]
  rw [parseDigits_natToStr, parseDigits_padLeft hfp10, length_padLeft_natChars hfp10]
  have hsplit : 10 ^ 12 * (a / 10 ^ 12) + a % 10 ^ 12 = a := Nat.div_add_mod a (10 ^ 12)
  have hcast : (a : ℚ) = 10 ^ 12 * ((a / 10 ^ 12 : ℕ) : ℚ) + ((a % 10 ^ 12 : ℕ) : ℚ) := by
    exact_mod_cast congrArg (fun k : ℕ => (k : ℚ)) hsplit.symm
  have hval : ((a / 10 ^ 12 : ℕ) : ℚ) + ((a % 10 ^ 12 : ℕ) : ℚ) / 10 ^ 12
      = (a : ℚ) / 10 ^ 12 := by
    rw [eq_div_iff (ne_of_gt hE), hcast]
    ring
  rw [← hval]

theorem parseQ_print_int (n : ℤ) :
    parseQ (if n < 0 then
        "-" ++ (natToStr (n.natAbs / 10 ^ 12) ++ "." ++
          String.mk (padLeft 12 (natChars (n.natAbs % 10 ^ 12))))
      else
        natToStr (n.natAbs / 10 ^ 12) ++ "." ++
          String.mk (padLeft 12 (natChars (n.natAbs % 10 ^ 12)))) =
    some ((n : ℚ) / 10 ^ 12) := by
  have hcore : (natToStr (n.natAbs / 10 ^ 12) ++ "." ++
      String.mk (padLeft 12 (natChars (n.natAbs % 10 ^ 12)))).data
      = (natToStr (n.natAbs / 10 ^ 12)).data ++ '.' ::
        padLeft 12 (natChars (n.natAbs % 10 ^ 12)) := by
    rw [data_append, data_append, List.append_assoc]
    rfl
  by_cases hneg : n < 0
  · rw [if_pos hneg]
    have hdata : ("-" ++ (natToStr (n.natAbs / 10 ^ 12) ++ "." ++
        String.mk (padLeft 12 (natChars (n.natAbs % 10 ^ 12))))).data
        = '-' :: ((natToStr (n.natAbs / 10 ^ 12)).data ++ '.' ::
          padLeft 12 (natChars (n.natAbs % 10 ^ 12))) := by
      rw [data_append, hcore]
      rfl
    simp only [parseQ, hdata, if_pos rfl]
    rw [parseUnsigned_core]
    have hna : ((n : ℤ) : ℚ) = -((n.natAbs : ℕ) : ℚ) := by
      have h1 : (n : ℤ) = -(n.natAbs : ℤ) := by omega
      have h2 := congrArg (fun k : ℤ => (k : ℚ)) h1
      push_cast at h2
      exact_mod_cast h2
    rw [hna]
    simp [neg_div]
  · rw [if_neg hneg]
    obtain ⟨c0, cs0, hcs⟩ := List.exists_cons_of_ne_nil (natToStr_ne_nil (n.natAbs / 10 ^ 12))
    have hc0 : c0 ≠ '-' := by
      obtain ⟨d, hd10, hdc⟩ :=
        natToStr_all_digits _ c0 (by rw [hcs]; exact List.mem_cons_self _ _)
      rw [hdc]
      exact digitChar_ne_dash hd10
    have hdata : (natToStr (n.natAbs / 10 ^ 12) ++ "." ++
        String.mk (padLeft 12 (natChars (n.natAbs % 10 ^ 12)))).data
        = c0 :: (cs0 ++ '.' :: padLeft 12 (natChars (n.natAbs % 10 ^ 12))) := by
      rw [hcore, hcs]
      rfl
    simp only [parseQ, hdata, if_neg hc0]
    rw [← List.cons_append, ← hcs, parseUnsigned_core]
    have hna : ((n : ℤ) : ℚ) = ((n.natAbs : ℕ) : ℚ) := by
      have h1 : (n : ℤ) = (n.natAbs : ℤ) := by omega
      conv_lhs => rw [h1]
      exact Int.cast_natCast _
    rw [hna]

theorem parseQ_printQ (q : ℚ) : parseQ (printQ q) = some (truncQ q) :=
  parseQ_print_int (Int.floor (q * 10 ^ 12))

theorem truncQ_close (q : ℚ) : |truncQ q - q| ≤ 1 / 1000000 := by
  have hE : (0 : ℚ) < 10 ^ 12 := by norm_num
  have h1 : ((Int.floor (q * 10 ^ 12) : ℤ) : ℚ) ≤ q * 10 ^ 12 := Int.floor_le _
  have h2 : q * 10 ^ 12 < (Int.floor (q * 10 ^ 12) : ℤ) + 1 := Int.lt_floor_add_one _
  have hle : truncQ q ≤ q := by
    rw [truncQ, div_le_iff₀ hE]
    exact h1
  have hgt : q - truncQ q < 1 / 10 ^ 12 := by
    rw [truncQ, sub_lt_iff_lt_add]
    have he : (1 : ℚ) / 10 ^ 12 + ((Int.floor (q * 10 ^ 12) : ℤ) : ℚ) / 10 ^ 12
        = (((Int.floor (q * 10 ^ 12) : ℤ) : ℚ) + 1) / 10 ^ 12 := by
      ring
    rw [he, lt_div_iff₀ hE]
    linarith
  calc |truncQ q - q| = q - truncQ q := by
        rw [abs_of_nonpos (by linarith)]
        ring
    _ ≤ 1 / 1000000 := by
        have h3 : (1 : ℚ) / 10 ^ 12 ≤ 1 / 1000000 := by norm_num
        linarith

theorem printQ_ne_empty (q : ℚ) : printQ q ≠ "" := by
  intro h
  have h1 := parseQ_printQ q
  rw [h, show parseQ "" = none from rfl] at h1
  exact Option.noConfusion h1

theorem parseCell_encodeCell_qCell (v : Option ℚ) :
    parseCell (encodeCell (qCell v)) = qCell (Option.map truncQ v) := by
  cases v with
  | none => rfl
  | some q =>
    show parseCell (printQ q) = Cell.num (truncQ q)
    rw [parseCell, if_neg (printQ_ne_empty q), parseQ_printQ q]

/-! ### CSV record round-trip lemmas -/

theorem find?_name_nodup {α : Type} :
    ∀ (L : List (String × α)) (j : ℕ) (hj : j < L.length),
      (L.map Prod.fst).Nodup →
      L.find? (fun c => c.1 == (L.get ⟨j, hj⟩).1) = some (L.get ⟨j, hj⟩)
  | [], j, hj, _ => absurd hj (by simp)
  | c :: cs, 0, hj, hnd => by
    rw [List.find?_cons_of_pos _ (by simp)]
    rfl
  | c :: cs, j + 1, hj, hnd => by
    have hj2 : j < cs.length := Nat.lt_of_succ_lt_succ hj
    have hname : ((c :: cs).get ⟨j + 1, hj⟩).1 = (cs.get ⟨j, hj2⟩).1 := rfl
    have hmem : (cs.get ⟨j, hj2⟩).1 ∈ cs.map Prod.fst :=
      List.mem_map_of_mem _ (List.get_mem cs j hj2)
    have hhead : c.1 ∉ cs.map Prod.fst := by
      rw [List.map_cons, List.nodup_cons] at hnd
      exact hnd.1
    have hne : c.1 ≠ (cs.get ⟨j, hj2⟩).1 := fun he => hhead (he ▸ hmem)
    rw [List.find?_cons_of_neg _ (by simpa [hname] using hne)]
    have hnd2 : (cs.map Prod.fst).Nodup := by
      rw [List.map_cons, List.nodup_cons] at hnd
      exact hnd.2
    rw [show ((c :: cs).get ⟨j + 1, hj⟩) = cs.get ⟨j, hj2⟩ from rfl]
    exact find?_name_nodup cs j hj2 hnd2

theorem getD_map_lt {α β : Type} (l : List α) (f : α → β) (d : β) (j : ℕ)
    (hj : j < l.length) : (l.map f).getD j d = f (l.get ⟨j, hj⟩) := by
  rw [List.getD_eq_getElem?_getD, List.getElem?_map,
    List.getElem?_eq_getElem hj]
  simp [List.get_eq_getElem]

theorem range_map_getD {α β : Type} (l : List α) (f : α → β) (d : α) :
    (List.range l.length).map (fun i => f (l.getD i d)) = l.map f := by
  apply List.ext_getElem
  · simp
  · intro i h1 h2
    simp only [List.getElem_map, List.getElem_range, List.getD_eq_getElem?_getD]
    rw [List.getElem?_eq_getElem (by simpa using h2)]
    rfl

theorem encodeTable_not_blank (t : Table) (h2 : 2 ≤ t.cols.length) :
    ∀ r ∈ encodeTable t, blankRecord r = false := by
  intro r hr
  rw [encodeTable] at hr
  rcases List.mem_cons.mp hr with rfl | hr
  · simp only [blankRecord, Bool.and_eq_false_iff, decide_eq_false_iff_not]
    left
    rw [Table.header, List.length_map]
    omega
  · obtain ⟨i, hi, rfl⟩ := List.mem_map.mp hr
    simp only [blankRecord, Bool.and_eq_false_iff, decide_eq_false_iff_not]
    left
    rw [List.length_map]
    omega

theorem parseTable_encode (t : Table) (hwf : t.Wf) (h2 : 2 ≤ t.cols.length) :
    (parseTable (encodeTable t)).nRows = t.nRows ∧
    ∀ j, ∀ hj : j < t.cols.length,
      (parseTable (encodeTable t)).getCol? ((t.cols.get ⟨j, hj⟩).1) =
        some ((t.cols.get ⟨j, hj⟩).2.map (fun c => parseCell (encodeCell c))) := by
  have hfilter : (encodeTable t).filter (fun r => !blankRecord r) = encodeTable t := by
    rw [List.filter_eq_self]
    intro r hr
    simp [encodeTable_not_blank t h2 r hr]
  have hparse : parseTable (encodeTable t) =
      ⟨(t.header.zip (List.range t.header.length)).map
        (fun nj => (nj.1, ((List.range t.nRows).map
          (fun i => t.cols.map (fun c => encodeCell (c.2.getD i .na)))).map
            (fun r => parseCell (r.getD nj.2 ""))))⟩ := by
    rw [parseTable, hfilter, encodeTable]
  have hhlen : t.header.length = t.cols.length := by
    rw [Table.header, List.length_map]
  have hplen : (parseTable (encodeTable t)).cols.length = t.cols.length := by
    rw [hparse]
    simp [List.length_zip, hhlen]
  have hnames : (parseTable (encodeTable t)).cols.map Prod.fst = t.header := by
    rw [hparse]
    show ((t.header.zip (List.range t.header.length)).map _).map Prod.fst = _
    rw [List.map_map]
    have : (Prod.fst ∘ fun nj : String × ℕ =>
        (nj.1, ((List.range t.nRows).map
          (fun i => t.cols.map (fun c => encodeCell (c.2.getD i .na)))).map
            (fun r => parseCell (r.getD nj.2 "")))) = Prod.fst := by
      funext nj
      rfl
    rw [this]
    exact List.map_fst_zip _ _ (by simp)
  constructor
  · have hne : t.header ≠ [] := by
      intro h
      have h3 : t.header.length = 0 := by rw [h]; rfl
      rw [hhlen] at h3
      omega
    obtain ⟨h0, hrest, hh⟩ := List.exists_cons_of_ne_nil hne
    rw [hparse, hh]
    rw [List.length_cons, List.range_succ_eq_map, List.zip_cons_cons, List.map_cons]
    show (((List.range t.nRows).map _).map _).length = t.nRows
    rw [List.length_map, List.length_map, List.length_range]
  · intro j hj
    have hj2 : j < t.header.length := by rw [hhlen]; exact hj
    have hjP : j < (parseTable (encodeTable t)).cols.length := by rw [hplen]; exact hj
    have hPget : (parseTable (encodeTable t)).cols.get ⟨j, hjP⟩ =
        (t.header.get ⟨j, hj2⟩,
          ((List.range t.nRows).map
            (fun i => t.cols.map (fun c => encodeCell (c.2.getD i .na)))).map
              (fun r => parseCell (r.getD j ""))) := by
      simp only [hparse, List.get_eq_getElem, List.getElem_map, List.getElem_zip,
        List.getElem_range]
    have hname : (t.cols.get ⟨j, hj⟩).1 = t.header.get ⟨j, hj2⟩ := by
      simp [Table.header, List.get_eq_getElem, List.getElem_map]
    have hndP : ((parseTable (encodeTable t)).cols.map Prod.fst).Nodup := by
      rw [hnames]; exact hwf.2
    have hfind := find?_name_nodup (parseTable (encodeTable t)).cols j hjP hndP
    have hPname : ((parseTable (encodeTable t)).cols.get ⟨j, hjP⟩).1 =
        t.header.get ⟨j, hj2⟩ := by rw [hPget]
    rw [Table.getCol?, hname, ← hPname, hfind, Option.map_some', hPget]
    show some _ = some _
    congr 1
    rw [List.map_map]
    have hcolj : (t.cols.get ⟨j, hj⟩).2.length = t.nRows := hwf.1 _ (List.get_mem _ _ _)
    rw [← hcolj,
      ← range_map_getD ((t.cols.get ⟨j, hj⟩).2) (fun c => parseCell (encodeCell c)) Cell.na]
    apply List.map_congr_left
    intro i hi
    show parseCell ((t.cols.map (fun c => encodeCell (c.2.getD i Cell.na))).getD j "") = _
    rw [getD_map_lt t.cols _ _ j hj]

/-! ## Claim theorems -/

/-- C1: the unit normalizer is the identity on the coerced temperature series
when the selected unit is Celsius; when the selected unit is Fahrenheit it maps
every non-missing value `f` to `(f - 32) * 5/9` element-wise, and in both
cases missing values remain missing. -/
theorem temperatureSeriesC_correct (s : List (Option ℚ)) :
    temperatureSeriesC .celsius s = s ∧
    temperatureSeriesC .fahrenheit s = s.map (Option.map (fun f => (f - 32) * 5 / 9)) ∧
    ∀ (u : TUnit) (i : ℕ), s[i]? = some none → (temperatureSeriesC u s)[i]? = some none := by
  refine ⟨rfl, ?_, ?_⟩
  · simp [temperatureSeriesC, seriesDiv, seriesMul, seriesSub, List.map_map,
      Function.comp_def, Option.map_map]
  · intro u i h
    cases u with
    | celsius => exact h
    | fahrenheit =>
      simp [temperatureSeriesC, seriesDiv, seriesMul, seriesSub, List.getElem?_map, h]

/-- Witness for C1: a concrete missing entry stays missing through the
Fahrenheit conversion. -/
theorem temperatureSeriesC_correct_witness :
    (temperatureSeriesC .fahrenheit [some 50, none])[1]? = some none :=
  (temperatureSeriesC_correct [some 50, none]).2.2 .fahrenheit 1 (by rfl)

/-- C2: `first_match` performs a case-insensitive substring match, iterating
substrings in priority order and, within each substring, column names in
original order; it returns the first column whose lowercased form contains the
substring, and `none` exactly when no column matches any substring. -/
theorem first_match_correct (cols subs : List String) :
    (∀ c, first_match cols subs = some c →
      ∃ j, ∃ hj : j < subs.length, ∃ i, ∃ hi : i < cols.length,
        c = cols.get ⟨i, hi⟩ ∧
        (subs.get ⟨j, hj⟩).data <:+: (lowerStr (cols.get ⟨i, hi⟩)).data ∧
        (∀ i', ∀ hi' : i' < cols.length, i' < i →
          ¬((subs.get ⟨j, hj⟩).data <:+: (lowerStr (cols.get ⟨i', hi'⟩)).data)) ∧
        ∀ j', ∀ hj' : j' < subs.length, j' < j → ∀ c' ∈ cols,
          ¬((subs.get ⟨j', hj'⟩).data <:+: (lowerStr c').data)) ∧
    (first_match cols subs = none ↔
      ∀ s ∈ subs, ∀ c ∈ cols, ¬(s.data <:+: (lowerStr c).data)) :=
  ⟨fun c h => firstMatchAux_eq_some cols subs c h, firstMatchAux_eq_none cols subs⟩

/-- Witness for C2: on columns `["Date", "Temp_F"]` with substring list
`["temp"]`, the resolver returns `"Temp_F"` and the characterization holds at
that concrete input. -/
theorem first_match_correct_witness :
    ∃ j, ∃ hj : j < (["temp"] : List String).length,
      ∃ i, ∃ hi : i < (["Date", "Temp_F"] : List String).length,
        "Temp_F" = (["Date", "Temp_F"] : List String).get ⟨i, hi⟩ ∧
        ((["temp"] : List String).get ⟨j, hj⟩).data <:+:
          (lowerStr ((["Date", "Temp_F"] : List String).get ⟨i, hi⟩)).data ∧
        (∀ i', ∀ hi' : i' < (["Date", "Temp_F"] : List String).length, i' < i →
          ¬(((["temp"] : List String).get ⟨j, hj⟩).data <:+:
            (lowerStr ((["Date", "Temp_F"] : List String).get ⟨i', hi'⟩)).data)) ∧
        ∀ j', ∀ hj' : j' < (["temp"] : List String).length, j' < j →
          ∀ c' ∈ (["Date", "Temp_F"] : List String),
            ¬(((["temp"] : List String).get ⟨j', hj'⟩).data <:+: (lowerStr c').data) :=
  (first_match_correct ["Date", "Temp_F"] ["temp"]).1 "Temp_F" (by with_unfolding_all rfl)

/-- C3: a row is removed from the plot frame iff every plotted series
(Temperature in Celsius, plus Humidity when selected) is missing for that row:
the `dropna(how="all")` filter agrees with the spec-side keep predicate, and on
a concrete frame the row with Temperature present and Humidity missing is kept
while the all-missing row is dropped. -/
theorem dropna_correct (pf : PlotFrame) :
    (dropnaAll pf).rows = pf.rows.filter (fun r => rowKeptSpec pf.humSel r) ∧
    (∀ r ∈ pf.rows,
      (r ∈ (dropnaAll pf).rows ↔ ¬(r.1 = none ∧ (pf.humSel = true → r.2 = none)))) ∧
    dropnaAll ⟨true, [(some 20, none), (none, some 5), (none, none)]⟩ =
      ⟨true, [(some 20, none), (none, some 5)]⟩ := by
  refine ⟨?_, ?_, rfl⟩
  · apply List.filter_congr
    intro r hr
    cases hs : pf.humSel <;> rcases r with ⟨t | t, h | h⟩ <;>
      simp [rowAllNa, rowKeptSpec]
  · intro r hr
    simp only [dropnaAll, List.mem_filter, hr, true_and]
    cases hs : pf.humSel <;> rcases r with ⟨t | t, h | h⟩ <;>
      simp [rowAllNa]

/-- Witness for C3: in the concrete frame, the row with Temperature present
and Humidity missing survives the drop. -/
theorem dropna_correct_witness :
    (some (20 : ℚ), (none : Option ℚ)) ∈
      (dropnaAll ⟨true, [(some 20, none), (none, some 5), (none, none)]⟩).rows :=
  ((dropna_correct ⟨true, [(some 20, none), (none, some 5), (none, none)]⟩).2.1
    (some 20, none) (by simp)).mpr (by simp)

/-- C7: `safe_index` never fails: it returns `offset + i` where `i` is the
position of the first occurrence of the value in the options when the value is
present, and the fallback when the value is absent or missing (`None`). -/
theorem safe_index_correct (options : List String) (v : String) (off fb : ℕ) :
    safe_index options none off fb = fb ∧
    (v ∈ options → ∃ i, ∃ hi : i < options.length,
      safe_index options (some v) off fb = off + i ∧ options.get ⟨i, hi⟩ = v ∧
      ∀ j, ∀ hj : j < options.length, j < i → options.get ⟨j, hj⟩ ≠ v) ∧
    (v ∉ options → safe_index options (some v) off fb = fb) := by
  refine ⟨rfl, ?_, ?_⟩
  · intro hv
    cases hf : findFirst (fun x => x == v) options with
    | none =>
      exfalso
      have := findFirst_eq_none.mp hf v hv
      simp at this
    | some i =>
      obtain ⟨hi, hp, hbefore⟩ := findFirst_eq_some hf
      refine ⟨i, hi, by simp [safe_index, hf], by simpa using hp, ?_⟩
      intro j hj hji
      simpa using hbefore j hj hji
  · intro hv
    cases hf : findFirst (fun x => x == v) options with
    | none => simp [safe_index, hf]
    | some i =>
      obtain ⟨hi, hp, -⟩ := findFirst_eq_some hf
      exfalso
      have hg : options.get ⟨i, hi⟩ = v := by simpa using hp
      exact hv (hg ▸ List.get_mem options i hi)

/-- Witness for C7: concrete lookups — present value with offset, and absent
value falling back. -/
theorem safe_index_correct_witness :
    (∃ i, ∃ hi : i < (["a", "b", "c"] : List String).length,
      safe_index ["a", "b", "c"] (some "b") 1 7 = 1 + i ∧
      (["a", "b", "c"] : List String).get ⟨i, hi⟩ = "b" ∧
      ∀ j, ∀ hj : j < (["a", "b", "c"] : List String).length, j < i →
        (["a", "b", "c"] : List String).get ⟨j, hj⟩ ≠ "b") ∧
    safe_index ["a", "b", "c"] (some "z") 1 7 = 7 :=
  ⟨(safe_index_correct ["a", "b", "c"] "b" 1 7).2.1 (by simp),
   (safe_index_correct ["a", "b", "c"] "z" 1 7).2.2 (by simp)⟩

/-- C9: the exported CSV has one record for every row of the loaded table —
row-dropping touches only the plot frame, never the table serialized for
download (which keeps `df.nRows` rows plus the header record). -/
theorem export_row_count (df : Table) (sel : Selections) (hwf : df.Wf)
    (hne : df.cols ≠ []) (htemp : sel.tempCol ∈ df.header) (hhum : HumOk df sel) :
    (outTable df sel).nRows = df.nRows ∧
    (encodeTable (outTable df sel)).length = df.nRows + 1 := by
  obtain ⟨h1, -, -, -⟩ := outTable_facts df sel hwf hne htemp hhum
  refine ⟨h1, ?_⟩
  simp [encodeTable, h1]

/-- Witness for C9: a table whose third row is dropped from the plot frame is
still exported with all three rows. -/
theorem export_row_count_witness :
    (outTable exDfDrop (defaultSelections exDfDrop .fahrenheit)).nRows = exDfDrop.nRows ∧
    (encodeTable (outTable exDfDrop (defaultSelections exDfDrop .fahrenheit))).length =
      exDfDrop.nRows + 1 :=
  export_row_count exDfDrop (defaultSelections exDfDrop .fahrenheit)
    (by decide) (by decide) (by with_unfolding_all decide) (by with_unfolding_all decide)

/-- C6 counterexample: the exported table's columns are not exactly the
original columns plus `Temperature (°C)`: the intermediate `Temperature_C`
column is also serialized. -/
theorem out_columns_counterexample :
    (outTable exDfC6 (defaultSelections exDfC6 .celsius)).header ≠
      exDfC6.header ++ ["Temperature (°C)"] ∧
    (outTable exDfC6 (defaultSelections exDfC6 .celsius)).header =
      ["temp", "Temperature_C", "Temperature (°C)"] := by
  have h : (outTable exDfC6 (defaultSelections exDfC6 .celsius)).header =
      ["temp", "Temperature_C", "Temperature (°C)"] := by with_unfolding_all rfl
  exact ⟨by rw [h]; decide, h⟩

/-- C6 amended: the download is a comma-separated file named
`weather_processed.csv` with MIME type `text/csv`, whose columns are exactly
the original columns followed by `Temperature_C` and `Temperature (°C)` (for
tables that do not already use those two reserved names). -/
theorem out_columns_amended (df : Table) (sel : Selections)
    (htemp : sel.tempCol ∈ df.header) (hhum : HumOk df sel)
    (hr1 : "Temperature_C" ∉ df.header) (hr2 : "Temperature (°C)" ∉ df.header)
    (hwf : df.Wf) (hne : df.cols ≠ []) :
    (outTable df sel).header = df.header ++ ["Temperature_C", "Temperature (°C)"] ∧
    ∀ r, pipeline df sel = .ok r →
      r.out = outTable df sel ∧ r.fileName = "weather_processed.csv" ∧
        r.mime = "text/csv" := by
  obtain ⟨hchdr, -, -, -⟩ := coercedTable_facts df sel hwf hne htemp hhum
  have hwhdr : (workTable df sel).header =
      df.header ++ ["Temperature_C"] := by
    rw [workTable, header_setCol_of_notMem _ _ _ (by rw [hchdr]; exact hr1), hchdr]
  have hohdr : (outTable df sel).header =
      df.header ++ ["Temperature_C", "Temperature (°C)"] := by
    rw [outTable, header_setCol_of_notMem _ _ _ (by
      rw [hwhdr]
      simp [hr2]), hwhdr]
    simp
  refine ⟨hohdr, ?_⟩
  intro r hok
  rw [pipeline] at hok
  split at hok
  · exact absurd hok (by simp)
  · split at hok
    · exact absurd hok (by simp)
    · obtain rfl := Except.ok.inj hok
      exact ⟨rfl, rfl, rfl⟩

/-- Witness for C6 (amended): the concrete one-column table exports exactly
its original column plus the two temperature columns. -/
theorem out_columns_amended_witness :
    (outTable exDfC6 (defaultSelections exDfC6 .celsius)).header =
      exDfC6.header ++ ["Temperature_C", "Temperature (°C)"] :=
  (out_columns_amended exDfC6 (defaultSelections exDfC6 .celsius)
    (by with_unfolding_all decide) (by with_unfolding_all decide)
    (by decide) (by decide) (by decide) (by decide)).1

/-- C10 counterexample: when the original table already has a column named
`Temperature_C`, that non-selected original column is overwritten by the
pipeline, so "all other original columns are unchanged" fails as stated. -/
theorem coerced_columns_counterexample :
    (workTable exDfC10 ⟨"temp", "<none>", .celsius, "<index>"⟩).getCol? "Temperature_C" ≠
      exDfC10.getCol? "Temperature_C" ∧
    exDfC10.getCol? "Temperature_C" = some [.str "x"] ∧
    (workTable exDfC10 ⟨"temp", "<none>", .celsius, "<index>"⟩).getCol? "Temperature_C" =
      some [.num 1] := by
  have h2 : exDfC10.getCol? "Temperature_C" = some [Cell.str "x"] := rfl
  have h3 : (workTable exDfC10 ⟨"temp", "<none>", .celsius, "<index>"⟩).getCol? "Temperature_C" =
      some [Cell.num 1] := by with_unfolding_all rfl
  exact ⟨by rw [h2, h3]; decide, h2, h3⟩

/-- C10 amended: the selected temperature column (and humidity column when
selected) is overwritten with its numeric-coerced values in both the displayed
working table and the exported table, non-numeric cells becoming missing; all
other original columns are unchanged, provided the original table does not
already use the reserved names `Temperature_C` / `Temperature (°C)`. -/
theorem coerced_columns_amended (df : Table) (sel : Selections)
    (htemp : sel.tempCol ∈ df.header) (hhum : HumOk df sel)
    (hr1 : "Temperature_C" ∉ df.header) (hr2 : "Temperature (°C)" ∉ df.header) :
    (workTable df sel).getCol? sel.tempCol = some (coerceCol (df.getColD sel.tempCol)) ∧
    (outTable df sel).getCol? sel.tempCol = some (coerceCol (df.getColD sel.tempCol)) ∧
    (sel.humCol ≠ "<none>" →
      (workTable df sel).getCol? sel.humCol = some (coerceCol (df.getColD sel.humCol)) ∧
      (outTable df sel).getCol? sel.humCol = some (coerceCol (df.getColD sel.humCol))) ∧
    (∀ n, n ∈ df.header → n ≠ sel.tempCol →
      (sel.humCol = "<none>" ∨ n ≠ sel.humCol) →
      (workTable df sel).getCol? n = df.getCol? n ∧
      (outTable df sel).getCol? n = df.getCol? n) ∧
    (∀ s, parseQ s = none → toNumericCell (.str s) = .na) ∧
    (∀ q : ℚ, toNumericCell (.num q) = .num q) := by
  have htne : sel.tempCol ≠ "Temperature_C" := fun he => hr1 (he ▸ htemp)
  have htne2 : sel.tempCol ≠ "Temperature (°C)" := fun he => hr2 (he ▸ htemp)
  have hctemp : (coercedTable df sel).getCol? sel.tempCol =
      some (coerceCol (df.getColD sel.tempCol)) := by
    rw [coercedTable]
    by_cases hh : sel.humCol = "<none>"
    · simp only [hh, ne_eq, not_true_eq_false, if_false]
      exact getCol?_setCol_self _ _ _
    · simp only [ne_eq, hh, not_false_eq_true, if_true]
      by_cases hht : sel.humCol = sel.tempCol
      · rw [hht, getCol?_setCol_self, getColD_setCol_self, coerceCol_idem]
      · rw [getCol?_setCol_ne _ _ _ _ (Ne.symm hht)]
        exact getCol?_setCol_self _ _ _
  have hwtemp : (workTable df sel).getCol? sel.tempCol =
      some (coerceCol (df.getColD sel.tempCol)) := by
    rw [workTable, getCol?_setCol_ne _ _ _ _ htne]
    exact hctemp
  have hotemp : (outTable df sel).getCol? sel.tempCol =
      some (coerceCol (df.getColD sel.tempCol)) := by
    rw [outTable, getCol?_setCol_ne _ _ _ _ htne2]
    exact hwtemp
  refine ⟨hwtemp, hotemp, ?_, ?_, ?_, ?_⟩
  · intro hh
    have hhmem : sel.humCol ∈ df.header := hhum.resolve_left hh
    have hhne1 : sel.humCol ≠ "Temperature_C" := fun he => hr1 (he ▸ hhmem)
    have hhne2 : sel.humCol ≠ "Temperature (°C)" := fun he => hr2 (he ▸ hhmem)
    have hchum : (coercedTable df sel).getCol? sel.humCol =
        some (coerceCol (df.getColD sel.humCol)) := by
      rw [coercedTable]
      simp only [ne_eq, hh, not_false_eq_true, if_true]
      rw [getCol?_setCol_self]
      by_cases hht : sel.humCol = sel.tempCol
      · rw [hht, getColD_setCol_self, coerceCol_idem]
      · unfold Table.getColD
        rw [getCol?_setCol_ne _ _ _ _ hht]
    have hwhum : (workTable df sel).getCol? sel.humCol =
        some (coerceCol (df.getColD sel.humCol)) := by
      rw [workTable, getCol?_setCol_ne _ _ _ _ hhne1]
      exact hchum
    refine ⟨hwhum, ?_⟩
    rw [outTable, getCol?_setCol_ne _ _ _ _ hhne2]
    exact hwhum
  · intro n hn hnt hnh
    have hn1 : n ≠ "Temperature_C" := fun he => hr1 (he ▸ hn)
    have hn2 : n ≠ "Temperature (°C)" := fun he => hr2 (he ▸ hn)
    have hcn : (coercedTable df sel).getCol? n = df.getCol? n := by
      rw [coercedTable]
      by_cases hh : sel.humCol = "<none>"
      · simp only [hh, ne_eq, not_true_eq_false, if_false]
        exact getCol?_setCol_ne _ _ _ _ hnt
      · simp only [ne_eq, hh, not_false_eq_true, if_true]
        rw [getCol?_setCol_ne _ _ _ _ (hnh.resolve_left hh)]
        exact getCol?_setCol_ne _ _ _ _ hnt
    have hwn : (workTable df sel).getCol? n = df.getCol? n := by
      rw [workTable, getCol?_setCol_ne _ _ _ _ hn1]
      exact hcn
    refine ⟨hwn, ?_⟩
    rw [outTable, getCol?_setCol_ne _ _ _ _ hn2]
    exact hwn
  · intro s hs
    simp [toNumericCell, hs]
  · intro q
    rfl

/-- Witness for C10 (amended): on a concrete table, the selected temperature
column is exported coerced (text cells become missing). -/
theorem coerced_columns_amended_witness :
    (workTable exDfMix ⟨"temp", "hum", .fahrenheit, "<index>"⟩).getCol? "temp" =
      some (coerceCol (exDfMix.getColD "temp")) :=
  (coerced_columns_amended exDfMix ⟨"temp", "hum", .fahrenheit, "<index>"⟩
    (by decide) (by decide) (by decide) (by decide)).1

/-- C4: if, after coercion and conversion, zero rows carry a non-missing
Temperature value (row-dropping cannot change that count), the pipeline
terminates with the no-usable-data error before computing any statistics,
signalled by a constructor distinct from the empty-input error. -/
theorem noUsableData_correct (df : Table) (sel : Selections)
    (hne : df.isEmptyTable = false)
    (h0 : (tempCSeries df sel).filterMap id = []) :
    pipeline df sel = .error .noUsableData ∧
    PipeError.noUsableData ≠ PipeError.emptyInput := by
  refine ⟨?_, by decide⟩
  have hall : ∀ v ∈ tempCSeries df sel, v = none := by
    intro v hv
    simpa using List.filterMap_eq_nil_iff.mp h0 v hv
  have htnone : ∀ r ∈ (plotFrame0 df sel).rows, r.1 = none := by
    intro r hr0
    rw [plotFrame0, buildPlot] at hr0
    simp only at hr0
    split at hr0
    · obtain ⟨a, b⟩ := r
      exact hall a (List.of_mem_zip hr0).1
    · obtain ⟨t, ht, rfl⟩ := List.mem_map.mp hr0
      exact hall t ht
  have hfm : (plotTemps df sel).filterMap id = [] := by
    rw [List.filterMap_eq_nil_iff]
    intro v hv
    obtain ⟨r, hr, rfl⟩ := List.mem_map.mp hv
    simpa using htnone r (List.mem_of_mem_filter hr)
  rw [pipeline, if_neg (by simp [hne]), if_pos (by simp [hfm])]

/-- Witness for C4: a temperature column that is entirely non-numeric text
takes the no-usable-data path. -/
theorem noUsableData_correct_witness :
    pipeline exTextDf (defaultSelections exTextDf .celsius) = .error .noUsableData :=
  (noUsableData_correct exTextDf (defaultSelections exTextDf .celsius)
    (by rfl) (by with_unfolding_all rfl)).1

/-- C8: for the table `[{temp:32, hum:50}, {temp:212, hum:10}]` with unit
Fahrenheit, the Celsius series is `[0, 100]` and the KPIs are mean 50, min 0,
max 100; and each statistic depends only on the non-missing values of the
series. -/
theorem scenario_fahrenheit_stats :
    tempCSeries exT8 (defaultSelections exT8 .fahrenheit) = [some 0, some 100] ∧
    (pipeline exT8 (defaultSelections exT8 .fahrenheit)).map
      (fun r => (r.avgTemp, r.minTemp, r.maxTemp)) =
      .ok (some 50, some 0, some 100) ∧
    ∀ s : List (Option ℚ),
      seriesMean s = seriesMean ((s.filterMap id).map some) ∧
      seriesMin s = seriesMin ((s.filterMap id).map some) ∧
      seriesMax s = seriesMax ((s.filterMap id).map some) := by
  refine ⟨by with_unfolding_all rfl, by with_unfolding_all rfl, ?_⟩
  intro s
  have hfm : ((s.filterMap id).map some).filterMap id = s.filterMap id := by
    rw [List.filterMap_map]
    simp
  refine ⟨?_, ?_, ?_⟩ <;> simp only [seriesMean, seriesMin, seriesMax, hfm]

/-- C5: serializing the working table (with the Celsius column) to CSV records
and re-parsing the result with the same loader reproduces the exact row count,
and reproduces every Celsius value as its 12-decimal-digit truncation — within
the 1e-6 tolerance — with missing values staying missing. -/
theorem csv_roundtrip (df : Table) (sel : Selections) (hwf : df.Wf)
    (hne : df.cols ≠ []) (htemp : sel.tempCol ∈ df.header) (hhum : HumOk df sel) :
    (parseTable (encodeTable (outTable df sel))).nRows = df.nRows ∧
    (outTable df sel).nRows = df.nRows ∧
    (parseTable (encodeTable (outTable df sel))).getCol? "Temperature (°C)" =
      some ((tempCSeries df sel).map (fun v => qCell (Option.map truncQ v))) ∧
    (outTable df sel).getCol? "Temperature (°C)" =
      some ((tempCSeries df sel).map qCell) ∧
    ∀ q : ℚ, |truncQ q - q| ≤ 1 / 1000000 := by
  obtain ⟨hrows, howf, hoget, hocols⟩ := outTable_facts df sel hwf hne htemp hhum
  obtain ⟨hprows, hpcols⟩ := parseTable_encode (outTable df sel) howf hocols
  refine ⟨hprows.trans hrows, hrows, ?_, hoget, truncQ_close⟩
  have hmem := getCol?_some_mem _ _ _ hoget
  obtain ⟨⟨j, hj⟩, hget⟩ := List.mem_iff_get.mp hmem
  have hpj := hpcols j hj
  rw [hget] at hpj
  dsimp only at hpj
  rw [hpj, List.map_map]
  congr 1
  apply List.map_congr_left
  intro v hv
  exact parseCell_encodeCell_qCell v

/-- Witness for C5: the concrete Fahrenheit scenario table exports and
re-parses to the same row count, with the Celsius column reproduced as its
truncation. -/
theorem csv_roundtrip_witness :
    (parseTable (encodeTable (outTable exT8 (defaultSelections exT8 .fahrenheit)))).nRows =
      exT8.nRows ∧
    (parseTable (encodeTable (outTable exT8 (defaultSelections exT8 .fahrenheit)))).getCol?
        "Temperature (°C)" =
      some ((tempCSeries exT8 (defaultSelections exT8 .fahrenheit)).map
        (fun v => qCell (Option.map truncQ v))) :=
  ⟨(csv_roundtrip exT8 (defaultSelections exT8 .fahrenheit) (by decide) (by decide)
      (by with_unfolding_all decide) (by with_unfolding_all decide)).1,
   (csv_roundtrip exT8 (defaultSelections exT8 .fahrenheit) (by decide) (by decide)
      (by with_unfolding_all decide) (by with_unfolding_all decide)).2.2.1⟩

end Waterclass
